import Mathlib

/-!
Verification of the GeminiEditor pseudo-concatenated playback engine and
Edit-Decision-List editing state machine, as implemented in the frontend
sources (`SequentialVideoPlayer.tsx`, `editorStore.ts`, `TrimExtendModal.tsx`
and the edit-editor page).  Times are modelled by `ℚ` (the TypeScript code
uses IEEE doubles; all operations verified here are additive walks that are
exact over the rationals).
-/

namespace GeminiEditor

/-- One EDL entry, as stored in `editorStore.ts` (`EditDecision` from the API
client module; field list per the repository's data model: stable `id`,
`order_index` position, source references, time range, display text, and the
inclusion / provenance flags). -/
structure EditDecision where
  id : String
  order_index : Int
  segment_id : String
  source_ref : String
  start_time : ℚ
  end_time : ℚ
  transcript_text : String
  is_included : Bool
  is_ai_selected : Bool
  user_modified : Bool
deriving Repr, DecidableEq

/-! ## TimelineMapper (SequentialVideoPlayer.tsx)

A clip enters the player only through its `duration` field in the time
arithmetic, so the playback list is embedded as a `List ℚ` of durations. -/

/-- `totalDuration` from `SequentialVideoPlayer.tsx` line 55:
`clips.reduce((sum, clip) => sum + clip.duration, 0)`. -/
def totalDuration (clips : List ℚ) : ℚ :=
  clips.foldl (fun sum d => sum + d) 0

/-- `getAccumulatedTime` from `SequentialVideoPlayer.tsx` line 58:
`clips.slice(0, clipIndex).reduce((sum, c) => sum + c.duration, 0)`. -/
def getAccumulatedTime (clips : List ℚ) (clipIndex : ℕ) : ℚ :=
  (clips.take clipIndex).foldl (fun sum d => sum + d) 0

/-- The cumulative-duration walk of `handleSeek` (`SequentialVideoPlayer.tsx`
lines 398-407).  `accumulatedTime` starts at 0 and `targetClipIndex` at 0; the
loop breaks at the first clip `i` with `t < accumulatedTime + clips[i].duration`,
otherwise the loop finishes with `targetClipIndex` still 0 and
`accumulatedTime` equal to the total duration; in both cases
`localTime = t - accumulatedTime` is computed after the loop. -/
def seekWalk : List ℚ → ℚ → ℚ → ℕ → ℕ × ℚ
  | [], t, acc, _ => (0, t - acc)
  | d :: rest, t, acc, i =>
      if t < acc + d then (i, t - acc) else seekWalk rest t (acc + d) (i + 1)

/-- Global-to-local conversion performed by `handleSeek` in sequential mode:
the walk starting from `accumulatedTime = 0`, `targetClipIndex = 0`. -/
def globalToLocal (clips : List ℚ) (t : ℚ) : ℕ × ℚ :=
  seekWalk clips t 0 0

/-- Local-to-global conversion used by `handleTimeUpdate`
(`SequentialVideoPlayer.tsx` lines 284-285):
`globalTime = getAccumulatedTime(currentClipIndex) + localTime`. -/
def localToGlobal (clips : List ℚ) (p : ℕ × ℚ) : ℚ :=
  getAccumulatedTime clips p.1 + p.2

/-! ## Playback end handling (SequentialVideoPlayer.tsx) -/

/-- The player component state touched by `handleVideoEnd`:
`currentClipIndex`, `isPlaying`, `currentTime` (React state) and
`intendedPlayingRef.current` (line 53). -/
structure PlayerState where
  currentClipIndex : ℕ
  isPlaying : Bool
  currentTime : ℚ
  intendedPlaying : Bool
deriving Repr, DecidableEq

/-- `handleVideoEnd` in sequential (non-HLS) mode (`SequentialVideoPlayer.tsx`
lines 241-254): if `currentClipIndex < clips.length - 1` advance to the next
clip, else set `isPlaying` false, `currentClipIndex` 0 and `currentTime` 0.
The handler never writes `intendedPlayingRef`. -/
def handleVideoEnd (clipCount : ℕ) (st : PlayerState) : PlayerState :=
  if st.currentClipIndex < clipCount - 1 then
    { st with currentClipIndex := st.currentClipIndex + 1 }
  else
    { st with isPlaying := false, currentClipIndex := 0, currentTime := 0 }

/-! ## Buffer layer (SequentialVideoPlayer.tsx preload cache)

The preload machinery keeps a cache `preloadCacheRef : Map<number, video>`.
The embedding records the cached indices, a log of every load that was
started (`video.load()` calls), the set of failures reported upward (none are
ever reported by the code), and the current clip index. -/
structure BufferState where
  preloadCache : List ℕ
  loadsIssued : List ℕ
  surfacedErrors : List ℕ
  currentClipIndex : ℕ
deriving Repr, DecidableEq

/-- The `onError` listener attached to each preload element
(`SequentialVideoPlayer.tsx` lines 104-110) only calls `console.error`; it
issues no new load, records nothing, surfaces nothing and does not move the
current clip index, so on the state it is the identity. -/
def bufferOnError (st : BufferState) (_index : ℕ) : BufferState :=
  st

/-- The `onCanPlay` listener (`SequentialVideoPlayer.tsx` lines 87-102):
`preloadCacheRef.current.set(index, video)`. -/
def bufferOnCanPlay (st : BufferState) (index : ℕ) : BufferState :=
  { st with preloadCache := st.preloadCache ++ [index] }

/-- `preloadClip` (`SequentialVideoPlayer.tsx` lines 80-111): returns early if
`index >= clips.length`, otherwise creates a video element and calls
`video.load()`, which starts an asynchronous load for that index. -/
def preloadClip (clipCount : ℕ) (st : BufferState) (index : ℕ) : BufferState :=
  if clipCount ≤ index then st
  else { st with loadsIssued := st.loadsIssued ++ [index] }

/-- The initial preload effect (`SequentialVideoPlayer.tsx` lines 66-122):
its cleanup clears the cache, then `clipsToPreload = min(BUFFER_SIZE = 3,
clips.length)` loads are started for indices `0 .. clipsToPreload - 1`. -/
def initialPreloadEffect (clipCount : ℕ) (st : BufferState) : BufferState :=
  (List.range (min 3 clipCount)).foldl (preloadClip clipCount)
    { st with preloadCache := [] }

/-- One iteration of the rolling-buffer loop in `handleTimeUpdate`
(`SequentialVideoPlayer.tsx` lines 294-306): for `targetIndex = i + offset`,
if `targetIndex < clips.length` and the cache does not hold it, start a load. -/
def rollingLoadStep (clipCount i : ℕ) (st : BufferState) (offset : ℕ) : BufferState :=
  if i + offset < clipCount ∧ i + offset ∉ st.preloadCache then
    { st with loadsIssued := st.loadsIssued ++ [i + offset] }
  else st

/-- The rolling buffer-ensuring step of `handleTimeUpdate`
(`SequentialVideoPlayer.tsx` lines 289-319): once halfway through clip `i`,
start loads for offsets 1, 2, 3 (`BUFFER_SIZE = 3`) that are not cached, then
clean up cache entries whose index is below `i - 2`. -/
def rollingEnsure (clipCount i : ℕ) (st : BufferState) : BufferState :=
  let st1 := [1, 2, 3].foldl (rollingLoadStep clipCount i) st
  { st1 with preloadCache := st1.preloadCache.filter fun idx => ! decide (idx < i - 2) }

/-- Readiness of one clip index as observable from the buffer state: cached
elements are ready, indices with a load started but not completed are
loading, all others were never loaded.  The code keeps no failure marker
(the error listener stores nothing), so no `Failed` constructor exists. -/
inductive ClipLoadState where
  | NotLoaded
  | Loading
  | Ready
deriving Repr, DecidableEq

/-- Status of index `i` in a buffer state. -/
def clipStatus (st : BufferState) (i : ℕ) : ClipLoadState :=
  if i ∈ st.preloadCache then ClipLoadState.Ready
  else if i ∈ st.loadsIssued then ClipLoadState.Loading
  else ClipLoadState.NotLoaded

/-! ## Editor store (editorStore.ts) -/

/-- The Zustand store state (`editorStore.ts` lines 57-74).  The `Edit`
record lives in the API client module, which is not part of the edited core;
none of the verified commands inspect it, so it is carried opaquely as an
optional identifier. -/
structure EditorState where
  currentEdit : Option String
  editDecisions : List EditDecision
  isPlaying : Bool
  currentTime : ℚ
  currentClipIndex : ℕ
  selectedDecisions : List String
  showExcluded : Bool
  undoStack : List (List EditDecision)
  redoStack : List (List EditDecision)
deriving Repr, DecidableEq

/-- `setEditDecisions` (`editorStore.ts` line 78): replaces the decision list
and touches nothing else — in particular neither history stack. -/
def setEditDecisions (decisions : List EditDecision) (s : EditorState) : EditorState :=
  { s with editDecisions := decisions }

/-- `saveToHistory` (`editorStore.ts` lines 150-154): push the current list
onto the undo stack (JavaScript `push` appends, so the top of each stack is
the last element) and clear the redo stack. -/
def saveToHistory (s : EditorState) : EditorState :=
  { s with undoStack := s.undoStack ++ [s.editDecisions], redoStack := [] }

/-- `toggleDecisionInclusion` (`editorStore.ts` lines 103-114): save history,
then flip `is_included` of the matching decision and mark it user-modified. -/
def toggleDecisionInclusion (decisionId : String) (s : EditorState) : EditorState :=
  { saveToHistory s with
      editDecisions := s.editDecisions.map fun d =>
        if d.id = decisionId then
          { d with is_included := !d.is_included, user_modified := true }
        else d }

/-- `reorderDecisions` (`editorStore.ts` lines 116-127): save history, then
re-number `order_index` by position in the supplied order and mark each
decision user-modified. -/
def reorderDecisions (newOrder : List EditDecision) (s : EditorState) : EditorState :=
  { saveToHistory s with
      editDecisions := newOrder.mapIdx fun index d =>
        { d with order_index := (index : Int), user_modified := true } }

/-- A partial decision update (`Partial<EditDecision>` in `updateDecision`):
each field optionally overridden. -/
structure DecisionUpdates where
  id : Option String := none
  order_index : Option Int := none
  segment_id : Option String := none
  source_ref : Option String := none
  start_time : Option ℚ := none
  end_time : Option ℚ := none
  transcript_text : Option String := none
  is_included : Option Bool := none
  is_ai_selected : Option Bool := none
  user_modified : Option Bool := none
deriving Repr, DecidableEq

/-- The object spread `{ ...d, ...updates, user_modified: true }`: every
present field of `updates` overrides `d`, and `user_modified` is forced to
`true` last. -/
def applyUpdates (d : EditDecision) (u : DecisionUpdates) : EditDecision where
  id := u.id.getD d.id
  order_index := u.order_index.getD d.order_index
  segment_id := u.segment_id.getD d.segment_id
  source_ref := u.source_ref.getD d.source_ref
  start_time := u.start_time.getD d.start_time
  end_time := u.end_time.getD d.end_time
  transcript_text := u.transcript_text.getD d.transcript_text
  is_included := u.is_included.getD d.is_included
  is_ai_selected := u.is_ai_selected.getD d.is_ai_selected
  user_modified := true

/-- `updateDecision` (`editorStore.ts` lines 129-138): save history, then
merge the updates into the matching decision. -/
def updateDecision (decisionId : String) (updates : DecisionUpdates) (s : EditorState) : EditorState :=
  { saveToHistory s with
      editDecisions := s.editDecisions.map fun d =>
        if d.id = decisionId then applyUpdates d updates else d }

/-- `removeDecision` (`editorStore.ts` lines 140-147): save history, then
drop the matching decision. -/
def removeDecision (decisionId : String) (s : EditorState) : EditorState :=
  { saveToHistory s with
      editDecisions := s.editDecisions.filter fun d => d.id != decisionId }

/-- `undo` (`editorStore.ts` lines 156-168): with an empty undo stack the
state is returned unchanged; otherwise the top snapshot becomes current, it
is removed from the undo stack, and the previously current list is pushed
onto the redo stack. -/
def undo (s : EditorState) : EditorState :=
  match s.undoStack.getLast? with
  | none => s
  | some previous =>
      { s with
          editDecisions := previous,
          undoStack := s.undoStack.dropLast,
          redoStack := s.redoStack ++ [s.editDecisions] }

/-- `redo` (`editorStore.ts` lines 170-182): symmetric to `undo`. -/
def redo (s : EditorState) : EditorState :=
  match s.redoStack.getLast? with
  | none => s
  | some next =>
      { s with
          editDecisions := next,
          redoStack := s.redoStack.dropLast,
          undoStack := s.undoStack ++ [s.editDecisions] }

/-- `canUndo` (`editorStore.ts` line 184): `undoStack.length > 0`. -/
def canUndo (s : EditorState) : Bool :=
  decide (0 < s.undoStack.length)

/-- `canRedo` (`editorStore.ts` line 186): `redoStack.length > 0`. -/
def canRedo (s : EditorState) : Bool :=
  decide (0 < s.redoStack.length)

/-- The four mutating store commands (the spec's `toggleInclusion`,
`reorder`, `trim`/`updateFields` — both served by `updateDecision` — and
`delete`). -/
inductive Command where
  | toggleInclusion (decisionId : String)
  | reorder (newOrder : List EditDecision)
  | update (decisionId : String) (updates : DecisionUpdates)
  | remove (decisionId : String)

/-- The effect of one command on the decision list alone. -/
def commandEffect : Command → List EditDecision → List EditDecision
  | Command.toggleInclusion decisionId, l =>
      l.map fun d =>
        if d.id = decisionId then
          { d with is_included := !d.is_included, user_modified := true }
        else d
  | Command.reorder newOrder, _ =>
      newOrder.mapIdx fun index d =>
        { d with order_index := (index : Int), user_modified := true }
  | Command.update decisionId updates, l =>
      l.map fun d => if d.id = decisionId then applyUpdates d updates else d
  | Command.remove decisionId, l =>
      l.filter fun d => d.id != decisionId

/-- Dispatch of a command to its store function. -/
def applyCommand : Command → EditorState → EditorState
  | Command.toggleInclusion decisionId, s => toggleDecisionInclusion decisionId s
  | Command.reorder newOrder, s => reorderDecisions newOrder s
  | Command.update decisionId updates, s => updateDecision decisionId updates s
  | Command.remove decisionId, s => removeDecision decisionId s

/-- A sequence of commands, applied left to right. -/
def applyCommands (cs : List Command) (s : EditorState) : EditorState :=
  cs.foldl (fun st c => applyCommand c st) s

/-- The successive decision lists produced by a command sequence. -/
def edlTrace : List Command → List EditDecision → List (List EditDecision)
  | [], _ => []
  | c :: cs, l => commandEffect c l :: edlTrace cs (commandEffect c l)

/-! ## Trim path (TrimExtendModal.tsx and the edit-editor page) -/

/-- `handleSave` of `TrimExtendModal.tsx` (lines 32-42): reject when
`startTime >= endTime`, reject when `duration = endTime - startTime < 0.1`,
otherwise hand the range to `onSave`. -/
def handleSaveGate (startTime endTime : ℚ) : Option (ℚ × ℚ) :=
  if startTime ≥ endTime then none
  else if endTime - startTime < 1 / 10 then none
  else some (startTime, endTime)

/-- The `onSave` callback wired to `TrimExtendModal` in the edit-editor page:
it maps the new range over the matching decision and installs the result with
`setEditDecisions` — not with `updateDecision`, so no history is recorded. -/
def trimViaModalSave (decisionId : String) (start_time end_time : ℚ) (s : EditorState) : EditorState :=
  setEditDecisions
    (s.editDecisions.map fun d =>
      if d.id = decisionId then
        { d with start_time := start_time, end_time := end_time, user_modified := true }
      else d) s

/-- The complete trim command as the user experiences it: the modal gate
followed, on acceptance, by the page's `onSave`. -/
def trimCommand (decisionId : String) (startTime endTime : ℚ) (s : EditorState) : EditorState :=
  match handleSaveGate startTime endTime with
  | none => s
  | some (a, b) => trimViaModalSave decisionId a b s

/-! ## Spec-side notion of contiguity -/

/-- A list of indices forms a contiguous range in the sense of the spec:
no duplicates, and it is closed under intermediate values. -/
def specContiguous (l : List Int) : Prop :=
  l.Nodup ∧ ∀ x ∈ l, ∀ y ∈ l, ∀ z : Int, x ≤ z → z ≤ y → z ∈ l

/-- The `order_index` values of the included (visible) subset, in list
order — the playback-relevant projection of the store state. -/
def includedOrderIndices (s : EditorState) : List Int :=
  (s.editDecisions.filter fun d => d.is_included).map fun d => d.order_index

/-! ## Concrete sample data used by counterexamples and witnesses -/

/-- Sample decision "A". -/
def decA : EditDecision :=
  { id := "A", order_index := 0, segment_id := "sA", source_ref := "v1",
    start_time := 0, end_time := 5, transcript_text := "alpha",
    is_included := true, is_ai_selected := true, user_modified := false }

/-- Sample decision "B". -/
def decB : EditDecision :=
  { id := "B", order_index := 1, segment_id := "sB", source_ref := "v1",
    start_time := 5, end_time := 8, transcript_text := "beta",
    is_included := true, is_ai_selected := true, user_modified := false }

/-- Sample decision "C". -/
def decC : EditDecision :=
  { id := "C", order_index := 2, segment_id := "sC", source_ref := "v1",
    start_time := 8, end_time := 11, transcript_text := "gamma",
    is_included := true, is_ai_selected := false, user_modified := false }

/-- A store state holding the three sample decisions and empty stacks. -/
def sampleState : EditorState :=
  { currentEdit := some "edit-1", editDecisions := [decA, decB, decC],
    isPlaying := false, currentTime := 0, currentClipIndex := 0,
    selectedDecisions := [], showExcluded := false,
    undoStack := [], redoStack := [] }

/-- A store state with a non-empty redo stack (as after an undo), used to
show that the modal trim path does not clear it. -/
def redoLadenState : EditorState :=
  { currentEdit := some "edit-1", editDecisions := [decA],
    isPlaying := false, currentTime := 0, currentClipIndex := 0,
    selectedDecisions := [], showExcluded := false,
    undoStack := [], redoStack := [[decA, decB]] }

/-- An empty buffer state. -/
def emptyBuffer : BufferState :=
  { preloadCache := [], loadsIssued := [], surfacedErrors := [], currentClipIndex := 0 }

/-- A buffer state in which one load for clip 0 was issued and failed. -/
def failedLoadBuffer : BufferState :=
  { preloadCache := [], loadsIssued := [0], surfacedErrors := [], currentClipIndex := 0 }

/-! ## Timeline lemmas -/

/-- The player's left fold over durations computes the list sum shifted by
the accumulator. -/
theorem foldl_add_eq_sum (l : List ℚ) : ∀ a : ℚ, l.foldl (fun sum d => sum + d) a = a + l.sum := by
  induction l with
  | nil => intro a; simp
  | cons d rest ih =>
      intro a
      simp only [List.foldl_cons, List.sum_cons, ih, add_assoc]

/-- `totalDuration` is the sum of the durations. -/
theorem totalDuration_eq_sum (clips : List ℚ) : totalDuration clips = clips.sum := by
  simp [totalDuration, foldl_add_eq_sum]

/-- `getAccumulatedTime` is the sum of the durations before the index. -/
theorem getAccumulatedTime_eq_sum (clips : List ℚ) (i : ℕ) :
    getAccumulatedTime clips i = (clips.take i).sum := by
  simp [getAccumulatedTime, foldl_add_eq_sum]

/-- When the target lies strictly inside the remaining duration, the seek
walk breaks at some clip `k`, returning that index (offset by the running
index) and the target minus the durations accumulated up to the break. -/
theorem seekWalk_break (rest : List ℚ) :
    ∀ (t acc : ℚ) (i : ℕ), acc ≤ t → t < acc + rest.sum →
      ∃ k, k < rest.length ∧ seekWalk rest t acc i = (i + k, t - (acc + (rest.take k).sum)) := by
  induction rest with
  | nil =>
      intro t acc i hle hlt
      simp only [List.sum_nil, add_zero] at hlt
      exact absurd hlt (not_lt.mpr hle)
  | cons d rest ih =>
      intro t acc i hle hlt
      by_cases h : t < acc + d
      · exact ⟨0, Nat.succ_pos _, by simp [seekWalk, h]⟩
      · have hle' : acc + d ≤ t := not_lt.mp h
        have hlt' : t < (acc + d) + rest.sum := by
          rw [List.sum_cons] at hlt; linarith
        obtain ⟨k, hk, heq⟩ := ih t (acc + d) (i + 1) hle' hlt'
        refine ⟨k + 1, Nat.succ_lt_succ hk, ?_⟩
        rw [seekWalk, if_neg h, heq]
        refine Prod.ext ?_ ?_
        · simp; omega
        · simp [List.take_succ_cons, List.sum_cons]
          ring_nf

/-- When the target is at or past the total remaining duration and all
durations are nonnegative, the walk never breaks: the index stays 0 and the
local time is the overshoot past the accumulated total. -/
theorem seekWalk_nobreak (rest : List ℚ) :
    ∀ (t acc : ℚ) (i : ℕ), (∀ d ∈ rest, 0 ≤ d) → acc + rest.sum ≤ t →
      seekWalk rest t acc i = (0, t - (acc + rest.sum)) := by
  induction rest with
  | nil => intro t acc i _ _; simp [seekWalk]
  | cons d rest ih =>
      intro t acc i hnn hle
      have hrest : 0 ≤ rest.sum := List.sum_nonneg fun x hx => hnn x (List.mem_cons_of_mem _ hx)
      have h : ¬ t < acc + d := by
        rw [List.sum_cons] at hle; push_neg; linarith
      rw [seekWalk, if_neg h, ih t (acc + d) (i + 1) (fun x hx => hnn x (List.mem_cons_of_mem _ hx))
        (by rw [List.sum_cons] at hle; linarith)]
      rw [List.sum_cons]
      ring_nf

/-- C1.  For every playback list and every global time `t` with
`0 ≤ t < totalDuration()`, converting `t` to a (clip index, local time) pair
via the cumulative-duration walk of `handleSeek` and converting the pair back
via `getAccumulatedTime(index) + localTime` yields `t` again — exactly, over
the rationals. -/
theorem seek_round_trip (clips : List ℚ) (t : ℚ) (h0 : 0 ≤ t)
    (ht : t < totalDuration clips) :
    localToGlobal clips (globalToLocal clips t) = t := by
  rw [totalDuration_eq_sum] at ht
  obtain ⟨k, _, heq⟩ := seekWalk_break clips t 0 0 h0 (by simpa using ht)
  rw [globalToLocal, heq, localToGlobal, getAccumulatedTime_eq_sum]
  simp

/-- Witness for C1 at Scenario A: clips of durations 5 and 3, `t = 6.5`. -/
theorem seek_round_trip_witness :
    0 ≤ (13 / 2 : ℚ) ∧ (13 / 2 : ℚ) < totalDuration [5, 3] ∧
      localToGlobal [5, 3] (globalToLocal [5, 3] (13 / 2)) = 13 / 2 :=
  ⟨by norm_num, by norm_num [totalDuration_eq_sum], seek_round_trip [5, 3] (13 / 2) (by norm_num)
    (by norm_num [totalDuration_eq_sum])⟩

/-- Counterexample for C2.  With clips of durations 2 and 3 and requested
global time 6 ≥ totalDuration = 5, `handleSeek`'s walk leaves
`targetClipIndex = 0` and produces local time `6 - 5 = 1`: the result is not
the clamp `(lastIndex, lastClip.duration) = (1, 3)` the claim requires, nor
is the target clamped into `[0, totalDuration())`. -/
theorem seek_no_clamp_counterexample :
    totalDuration [2, 3] ≤ (6 : ℚ) ∧
      globalToLocal [2, 3] 6 = (0, 1) ∧ globalToLocal [2, 3] 6 ≠ (1, 3) := by
  refine ⟨by norm_num [totalDuration_eq_sum], ?_, ?_⟩ <;>
    · simp only [globalToLocal, seekWalk]
      norm_num

/-- C2 as amended.  For every requested seek time `t ≥ totalDuration()` over
a playback list of nonnegative durations, the global-to-local conversion
yields clip index 0 with local time `t - totalDuration()` (the walk never
breaks, so `targetClipIndex` keeps its initial value 0): the seek wraps to
the first clip instead of clamping to the last one, and no error is
surfaced because the conversion has no error path. -/
theorem seek_past_end_wraps (clips : List ℚ) (t : ℚ)
    (hnn : ∀ d ∈ clips, 0 ≤ d) (ht : totalDuration clips ≤ t) :
    globalToLocal clips t = (0, t - totalDuration clips) := by
  rw [totalDuration_eq_sum] at ht ⊢
  rw [globalToLocal, seekWalk_nobreak clips t 0 0 hnn (by simpa using ht)]
  simp

/-- Witness for the amended C2 at clips `[2, 3]`, `t = 6`. -/
theorem seek_past_end_wraps_witness :
    (∀ d ∈ [(2 : ℚ), 3], 0 ≤ d) ∧ totalDuration [2, 3] ≤ (6 : ℚ) ∧
      globalToLocal [2, 3] 6 = (0, 6 - totalDuration [2, 3]) :=
  ⟨by intro d hd; fin_cases hd <;> norm_num,
   by norm_num [totalDuration_eq_sum],
   seek_past_end_wraps [2, 3] 6 (by intro d hd; fin_cases hd <;> norm_num)
     (by norm_num [totalDuration_eq_sum])⟩

/-! ## Editor store lemmas -/

/-- C10.  With an empty undo stack, `undo()` returns the state unchanged —
decision list, both stacks, playback and selection fields included; with an
empty redo stack, `redo()` is likewise a complete no-op. -/
theorem undo_redo_empty_noop (s : EditorState) :
    (s.undoStack = [] → undo s = s) ∧ (s.redoStack = [] → redo s = s) := by
  constructor
  · intro h; simp [undo, h]
  · intro h; simp [redo, h]

/-- Witness for C10 on the sample state, whose stacks are both empty. -/
theorem undo_redo_empty_noop_witness :
    sampleState.undoStack = [] ∧ sampleState.redoStack = [] ∧
      undo sampleState = sampleState ∧ redo sampleState = sampleState :=
  ⟨rfl, rfl, (undo_redo_empty_noop sampleState).1 rfl,
    (undo_redo_empty_noop sampleState).2 rfl⟩

/-- C5.  A trim request whose range has `start ≥ end` or duration below the
0.1 s threshold is rejected by the modal gate before `onSave` runs: the
whole store state — decision list and both history stacks — is exactly as it
was before the request. -/
theorem trim_invalid_range_rejected (s : EditorState) (decisionId : String)
    (startTime endTime : ℚ)
    (h : startTime ≥ endTime ∨ endTime - startTime < 1 / 10) :
    trimCommand decisionId startTime endTime s = s := by
  have hgate : handleSaveGate startTime endTime = none := by
    rcases h with h | h
    · rw [handleSaveGate, if_pos h]
    · rcases le_or_lt endTime startTime with h2 | h2
      · rw [handleSaveGate, if_pos h2]
      · rw [handleSaveGate, if_neg (not_le.mpr h2), if_pos h]
  simp only [trimCommand, hgate]

/-- Witness for C5: Scenario D style degenerate range `start = end = 1`. -/
theorem trim_invalid_range_rejected_witness :
    ((1 : ℚ) ≥ 1 ∨ (1 : ℚ) - 1 < 1 / 10) ∧
      trimCommand "A" 1 1 sampleState = sampleState :=
  ⟨Or.inl le_rfl, trim_invalid_range_rejected sampleState "A" 1 1 (Or.inl le_rfl)⟩

/-- Any store command is `saveToHistory` followed by its effect on the
decision list. -/
theorem applyCommand_eq (c : Command) (s : EditorState) :
    applyCommand c s =
      { s with editDecisions := commandEffect c s.editDecisions,
               undoStack := s.undoStack ++ [s.editDecisions],
               redoStack := [] } := by
  cases c <;> rfl

/-- C4 as amended.  Every store-level mutating command (toggle, reorder,
update, remove) first pushes the full pre-mutation decision list onto the
undo stack and clears the redo stack; immediately afterwards the redo stack
is empty, and `canUndo`/`canRedo` reflect stack emptiness exactly.  (The
modal trim path is the exception, see the counterexample.) -/
theorem store_commands_snapshot_history (c : Command) (s : EditorState) :
    (applyCommand c s).undoStack = s.undoStack ++ [s.editDecisions] ∧
    (applyCommand c s).redoStack = [] ∧
    canUndo (applyCommand c s) = true ∧
    canRedo (applyCommand c s) = false ∧
    (canUndo s = true ↔ s.undoStack ≠ []) ∧
    (canRedo s = true ↔ s.redoStack ≠ []) := by
  rw [applyCommand_eq]
  refine ⟨rfl, rfl, ?_, rfl, ?_, ?_⟩
  · simp [canUndo]
  · simp [canUndo, List.length_pos]
  · simp [canRedo, List.length_pos]

/-- Counterexample for C4.  A trim performed through the modal's `onSave`
(the page installs the new range with `setEditDecisions`) mutates the
decision list yet pushes no snapshot and does not clear the redo stack:
starting from a state with a non-empty redo stack, after a valid trim the
undo stack is unchanged, the redo stack is still non-empty, and `canRedo`
still reports `true`. -/
theorem trim_bypasses_history_counterexample :
    (trimCommand "A" 1 2 redoLadenState).editDecisions ≠ redoLadenState.editDecisions ∧
    (trimCommand "A" 1 2 redoLadenState).undoStack = redoLadenState.undoStack ∧
    (trimCommand "A" 1 2 redoLadenState).redoStack = redoLadenState.redoStack ∧
    redoLadenState.redoStack ≠ [] ∧
    canRedo (trimCommand "A" 1 2 redoLadenState) = true := by
  have hgate : handleSaveGate 1 2 = some (1, 2) := by
    rw [handleSaveGate, if_neg (by norm_num), if_neg (by norm_num)]
  have hcmd : trimCommand "A" 1 2 redoLadenState = trimViaModalSave "A" 1 2 redoLadenState := by
    rw [trimCommand, hgate]
  refine ⟨?_, by rw [hcmd]; rfl, by rw [hcmd]; rfl, by simp [redoLadenState], by rw [hcmd]; rfl⟩
  rw [hcmd]
  simp [trimViaModalSave, setEditDecisions, redoLadenState, decA]

/-! ## Undo/redo round trip (C3) -/

/-- Folding one more command. -/
theorem applyCommands_cons (c : Command) (cs : List Command) (s : EditorState) :
    applyCommands (c :: cs) s = applyCommands cs (applyCommand c s) := rfl

/-- The trace has one entry per command. -/
theorem edlTrace_length (cs : List Command) : ∀ l, (edlTrace cs l).length = cs.length := by
  induction cs with
  | nil => intro l; rfl
  | cons c cs ih => intro l; simp [edlTrace, ih]

/-- The decision list after a command sequence is the last trace entry. -/
theorem applyCommands_editDecisions (cs : List Command) :
    ∀ s : EditorState,
      (applyCommands cs s).editDecisions = (edlTrace cs s.editDecisions).getLastD s.editDecisions := by
  induction cs with
  | nil => intro s; rfl
  | cons c cs ih =>
      intro s
      rw [applyCommands_cons, ih]
      have hed : (applyCommand c s).editDecisions = commandEffect c s.editDecisions := by
        rw [applyCommand_eq]
      rw [hed, edlTrace, List.getLastD_cons]

/-- After `N ≥ 1` commands, undoing `N` times restores the original state
except that the redo stack now holds the trace in reverse (top = first
post-mutation list). -/
theorem undo_iterate_applyCommands (cs : List Command) :
    ∀ s : EditorState, cs ≠ [] →
      undo^[cs.length] (applyCommands cs s) =
        { s with redoStack := (edlTrace cs s.editDecisions).reverse } := by
  induction cs with
  | nil => intro s h; exact absurd rfl h
  | cons c cs ih =>
      intro s _
      by_cases hcs : cs = []
      · subst hcs
        show undo^[1] (applyCommand c s) = _
        rw [Function.iterate_one, applyCommand_eq]
        simp [undo, List.getLast?_concat, List.dropLast_concat, edlTrace]
      · rw [applyCommands_cons]
        show undo^[cs.length + 1] (applyCommands cs (applyCommand c s)) = _
        rw [Function.iterate_succ_apply', ih (applyCommand c s) hcs]
        rw [applyCommand_eq]
        simp [undo, List.getLast?_concat, List.dropLast_concat, edlTrace]

/-- Redoing as many times as the redo stack holds restores the last snapshot
and replays the earlier ones onto the undo stack. -/
theorem redo_iterate_restore (ts : List (List EditDecision)) :
    ∀ s : EditorState,
      redo^[ts.length] { s with redoStack := ts.reverse } =
        { s with editDecisions := ts.getLastD s.editDecisions,
                 undoStack := s.undoStack ++ (s.editDecisions :: ts).dropLast,
                 redoStack := [] } := by
  induction ts with
  | nil => intro s; simp
  | cons a rest ih =>
      intro s
      show redo^[rest.length + 1] _ = _
      rw [Function.iterate_succ_apply]
      have h1 : redo { s with redoStack := (a :: rest).reverse } =
          { s with editDecisions := a,
                   undoStack := s.undoStack ++ [s.editDecisions],
                   redoStack := rest.reverse } := by
        simp [redo, List.reverse_cons, List.getLast?_concat, List.dropLast_concat]
      rw [h1]
      have h2 : redo^[rest.length]
          ({ s with editDecisions := a,
                    undoStack := s.undoStack ++ [s.editDecisions],
                    redoStack := rest.reverse } : EditorState) =
          { s with editDecisions := rest.getLastD a,
                   undoStack := (s.undoStack ++ [s.editDecisions]) ++ ((a :: rest).dropLast),
                   redoStack := [] } :=
        ih { s with editDecisions := a, undoStack := s.undoStack ++ [s.editDecisions] }
      rw [h2]
      simp only [List.getLastD_cons, List.dropLast, List.append_assoc, List.singleton_append]

/-- C3.  For every initial store state and every sequence of `N` mutating
commands, `undo()` `N` times restores the original decision list, and
`redo()` `N` times afterwards restores the post-mutation decision list. -/
theorem undo_redo_round_trip (cs : List Command) (s : EditorState) :
    (undo^[cs.length] (applyCommands cs s)).editDecisions = s.editDecisions ∧
    (redo^[cs.length] (undo^[cs.length] (applyCommands cs s))).editDecisions =
      (applyCommands cs s).editDecisions := by
  by_cases h : cs = []
  · subst h; exact ⟨rfl, rfl⟩
  · have hu := undo_iterate_applyCommands cs s h
    constructor
    · rw [hu]
    · rw [hu, show cs.length = (edlTrace cs s.editDecisions).length from
        (edlTrace_length cs s.editDecisions).symm]
      rw [redo_iterate_restore (edlTrace cs s.editDecisions) s]
      rw [applyCommands_editDecisions]

/-! ## Order-index invariants (C6) -/

/-- Counterexample for C6.  On the sample EDL `[A, B, C]` with order indices
0, 1, 2 all included, toggling B's inclusion leaves the included subset with
order indices `[0, 2]`: unique, but not a contiguous range, because
`toggleDecisionInclusion` never re-sequences. -/
theorem included_indices_not_contiguous_counterexample :
    includedOrderIndices (applyCommand (Command.toggleInclusion "B") sampleState) = [0, 2] ∧
    ¬ specContiguous
        (includedOrderIndices (applyCommand (Command.toggleInclusion "B") sampleState)) := by
  have h : includedOrderIndices (applyCommand (Command.toggleInclusion "B") sampleState) = [0, 2] := by
    simp [includedOrderIndices, applyCommand, toggleDecisionInclusion, saveToHistory,
      sampleState, decA, decB, decC]
  refine ⟨h, ?_⟩
  rw [h]
  rintro ⟨-, hcl⟩
  have h1 := hcl 0 (by decide) 2 (by decide) 1 (by decide) (by decide)
  exact absurd h1 (by decide)

/-- After `reorderDecisions`, mapping out `order_index` gives exactly
`0, 1, ..., n-1`. -/
theorem map_orderIndex_mapIdx (l : List EditDecision) :
    ((l.mapIdx fun index d =>
        { d with order_index := (index : Int), user_modified := true }).map
          fun d => d.order_index) = (List.range l.length).map Int.ofNat := by
  rw [List.mapIdx_eq_enum_map, List.map_map, List.enum_eq_zip_range]
  conv_rhs =>
    rw [← List.map_fst_zip (List.range l.length) l (le_of_eq (List.length_range _)), List.map_map]
  apply List.map_congr_left
  intro p _
  rfl

/-- The integer list `0, 1, ..., n-1` is a contiguous range. -/
theorem specContiguous_range (n : ℕ) : specContiguous ((List.range n).map Int.ofNat) := by
  constructor
  · exact List.Nodup.map (fun a b h => Int.ofNat.inj h) (List.nodup_range n)
  · intro x hx y hy z hxz hzy
    simp only [List.mem_map, List.mem_range] at hx hy ⊢
    obtain ⟨i, hi, rfl⟩ := hx
    obtain ⟨j, hj, rfl⟩ := hy
    simp only [Int.ofNat_eq_natCast] at hxz hzy ⊢
    exact ⟨z.toNat, by omega, by omega⟩

/-- Toggling inclusion never changes any `order_index`. -/
theorem toggle_preserves_order_index (decisionId : String) (s : EditorState) :
    ((toggleDecisionInclusion decisionId s).editDecisions.map fun d => d.order_index) =
      s.editDecisions.map fun d => d.order_index := by
  show ((s.editDecisions.map _).map _) = _
  rw [List.map_map]
  apply List.map_congr_left
  intro d _
  by_cases h : d.id = decisionId <;> simp [h]

/-- C6 as amended.  `reorderDecisions` re-sequences `order_index` over the
*entire* supplied list to the contiguous, duplicate-free range
`0, ..., n-1`, and `toggleDecisionInclusion` preserves every decision's
`order_index`; consequently the included subset always has unique indices,
but after a toggle they need not form a contiguous range (see the
counterexample) because only `reorderDecisions` re-sequences. -/
theorem order_index_resequencing (s : EditorState) (newOrder : List EditDecision)
    (decisionId : String) :
    ((reorderDecisions newOrder s).editDecisions.map fun d => d.order_index) =
      (List.range newOrder.length).map Int.ofNat ∧
    specContiguous ((reorderDecisions newOrder s).editDecisions.map fun d => d.order_index) ∧
    ((toggleDecisionInclusion decisionId s).editDecisions.map fun d => d.order_index) =
      s.editDecisions.map fun d => d.order_index := by
  have h1 : ((reorderDecisions newOrder s).editDecisions.map fun d => d.order_index) =
      (List.range newOrder.length).map Int.ofNat := map_orderIndex_mapIdx newOrder
  exact ⟨h1, by rw [h1]; exact specContiguous_range newOrder.length,
    toggle_preserves_order_index decisionId s⟩

/-! ## Clip-load failure handling (C7) -/

/-- Counterexample for C7.  Starting from a buffer state in which one load
for clip 0 was issued and has failed, the error handler changes nothing: no
second load is issued for clip 0 (the count of issued loads stays 1, not 2),
no error is surfaced upward, and the current clip index does not skip — even
after a second failure the state is still identical. -/
theorem clip_load_error_no_retry_counterexample :
    bufferOnError failedLoadBuffer 0 = failedLoadBuffer ∧
    ¬ ((bufferOnError failedLoadBuffer 0).loadsIssued.count 0 =
        failedLoadBuffer.loadsIssued.count 0 + 1) ∧
    (bufferOnError (bufferOnError failedLoadBuffer 0) 0).surfacedErrors = [] ∧
    (bufferOnError (bufferOnError failedLoadBuffer 0) 0).currentClipIndex =
      failedLoadBuffer.currentClipIndex := by
  refine ⟨rfl, ?_, rfl, rfl⟩
  decide

/-- C7 as amended.  A failed clip load is logged to the console and nothing
else happens: the handler is the identity on the buffer state, so no retry
load is issued, no error is surfaced upward, and playback does not skip;
the failed clip simply never enters the preload cache. -/
theorem clip_load_error_logged_only (st : BufferState) (index : ℕ) :
    (bufferOnError st index).loadsIssued = st.loadsIssued ∧
    (bufferOnError st index).surfacedErrors = st.surfacedErrors ∧
    (bufferOnError st index).currentClipIndex = st.currentClipIndex ∧
    bufferOnError st index = st :=
  ⟨rfl, rfl, rfl, rfl⟩

/-! ## End-of-playback handling (C8) -/

/-- A player state playing the last of two clips with the intended-playing
flag set. -/
def endedPlayer : PlayerState :=
  { currentClipIndex := 1, isPlaying := true, currentTime := 7, intendedPlaying := true }

/-- Counterexample for C8.  When the last clip ends, `handleVideoEnd` resets
the index and time and clears `isPlaying`, but the intended-playing flag is
left set — it is not cleared as the claim requires. -/
theorem video_end_keeps_intended_flag_counterexample :
    handleVideoEnd 2 endedPlayer =
      { currentClipIndex := 0, isPlaying := false, currentTime := 0, intendedPlaying := true } ∧
    (handleVideoEnd 2 endedPlayer).intendedPlaying ≠ false := by
  constructor
  · simp [handleVideoEnd, endedPlayer]
  · simp [handleVideoEnd, endedPlayer]

/-- C8 as amended.  When the last clip of the playback list ends in
sequential mode, the handler clears `isPlaying` and resets the playback
position to clip 0 at global time 0, while the intended-playing flag is
left unchanged (only an explicit pause clears it). -/
theorem video_end_last_clip_resets (clipCount : ℕ) (st : PlayerState)
    (h : ¬ st.currentClipIndex < clipCount - 1) :
    handleVideoEnd clipCount st =
      { st with isPlaying := false, currentClipIndex := 0, currentTime := 0 } := by
  simp [handleVideoEnd, h]

/-- Witness for the amended C8 on a two-clip list at its last clip. -/
theorem video_end_last_clip_resets_witness :
    ¬ endedPlayer.currentClipIndex < 2 - 1 ∧
      handleVideoEnd 2 endedPlayer =
        { endedPlayer with isPlaying := false, currentClipIndex := 0, currentTime := 0 } :=
  ⟨by decide, video_end_last_clip_resets 2 endedPlayer (by decide)⟩

/-! ## Buffer coverage (C9) -/

/-- A clip index is outside `NotLoaded` exactly when it is cached or has a
load issued. -/
theorem clipStatus_ne_notLoaded (st : BufferState) (i : ℕ) :
    clipStatus st i ≠ ClipLoadState.NotLoaded ↔
      i ∈ st.preloadCache ∨ i ∈ st.loadsIssued := by
  by_cases h1 : i ∈ st.preloadCache <;> by_cases h2 : i ∈ st.loadsIssued <;>
    simp [clipStatus, h1, h2]

/-- Folding `preloadClip` over in-range indices records exactly those loads
and never touches the cache. -/
theorem foldl_preloadClip (clipCount : ℕ) (l : List ℕ) :
    ∀ st : BufferState, (∀ j ∈ l, j < clipCount) →
      (l.foldl (preloadClip clipCount) st).loadsIssued = st.loadsIssued ++ l ∧
      (l.foldl (preloadClip clipCount) st).preloadCache = st.preloadCache := by
  induction l with
  | nil => intro st _; simp
  | cons j rest ih =>
      intro st hall
      have hj : j < clipCount := hall j (List.mem_cons_self _ _)
      have hstep : preloadClip clipCount st j = { st with loadsIssued := st.loadsIssued ++ [j] } := by
        simp [preloadClip, Nat.not_le.mpr hj]
      rw [List.foldl_cons, hstep]
      obtain ⟨h1, h2⟩ := ih _ fun x hx => hall x (List.mem_cons_of_mem _ hx)
      exact ⟨by rw [h1]; simp, h2⟩

/-- One rolling-load step never changes the cache. -/
theorem rollingLoadStep_cache (n i : ℕ) (st : BufferState) (o : ℕ) :
    (rollingLoadStep n i st o).preloadCache = st.preloadCache := by
  unfold rollingLoadStep
  split <;> rfl

/-- One rolling-load step only appends to the issued-load log. -/
theorem rollingLoadStep_loads_mono (n i : ℕ) (st : BufferState) (o x : ℕ)
    (hx : x ∈ st.loadsIssued) : x ∈ (rollingLoadStep n i st o).loadsIssued := by
  unfold rollingLoadStep
  split
  · exact List.mem_append_left _ hx
  · exact hx

/-- A rolling-load step for an in-range, uncached target issues its load. -/
theorem rollingLoadStep_loads_self (n i : ℕ) (st : BufferState) (o : ℕ)
    (h1 : i + o < n) (h2 : i + o ∉ st.preloadCache) :
    i + o ∈ (rollingLoadStep n i st o).loadsIssued := by
  unfold rollingLoadStep
  rw [if_pos ⟨h1, h2⟩]
  simp

/-- Counterexample for C9.  With 5 clips, after the initial buffer-ensuring
step for index 0 completes, index 3 — which exists and lies inside the
claimed window `[0, 0 + 3]` — is still `NotLoaded`: the initial step only
covers indices 0, 1 and 2. -/
theorem buffer_window_counterexample :
    (3 ≤ 0 + 3 ∧ 3 < 5) ∧
      clipStatus (initialPreloadEffect 5 emptyBuffer) 3 = ClipLoadState.NotLoaded := by
  exact ⟨by decide, by decide⟩

/-- C9 as amended.  After the initial preload effect, every index below
`min 3 n` is `Ready` or `Loading`, never `NotLoaded`; after the rolling
buffer-ensuring step at clip `i`, every existing index in `[i+1, i+3]` is
`Ready` or `Loading`, never `NotLoaded`.  The window of the initial step is
`[0, 2]` (not `[0, 3]`), and the code keeps no `Failed` marker at all. -/
theorem buffer_ensure_covers_window (clipCount : ℕ) (st : BufferState) (j i offset : ℕ) :
    (j < min 3 clipCount →
      clipStatus (initialPreloadEffect clipCount st) j ≠ ClipLoadState.NotLoaded) ∧
    (1 ≤ offset → offset ≤ 3 → i + offset < clipCount →
      clipStatus (rollingEnsure clipCount i st) (i + offset) ≠ ClipLoadState.NotLoaded) := by
  constructor
  · intro hj
    rw [clipStatus_ne_notLoaded]
    right
    have h := foldl_preloadClip clipCount (List.range (min 3 clipCount))
      { st with preloadCache := [] }
      (fun x hx => lt_of_lt_of_le (List.mem_range.mp hx) (min_le_right _ _))
    show j ∈ (initialPreloadEffect clipCount st).loadsIssued
    rw [initialPreloadEffect, h.1]
    exact List.mem_append_right _ (List.mem_range.mpr hj)
  · intro h1off h3off htlt
    rw [clipStatus_ne_notLoaded]
    by_cases hc : i + offset ∈ st.preloadCache
    · left
      show i + offset ∈ (rollingEnsure clipCount i st).preloadCache
      rw [rollingEnsure]
      simp only [List.foldl_cons, List.foldl_nil]
      rw [List.mem_filter]
      constructor
      · rw [rollingLoadStep_cache, rollingLoadStep_cache, rollingLoadStep_cache]
        exact hc
      · simp only [Bool.not_eq_eq_eq_not, Bool.not_true, decide_eq_false_iff_not]
        omega
    · right
      show i + offset ∈ (rollingEnsure clipCount i st).loadsIssued
      rw [rollingEnsure]
      simp only [List.foldl_cons, List.foldl_nil]
      interval_cases offset
      · exact rollingLoadStep_loads_mono _ _ _ _ _
          (rollingLoadStep_loads_mono _ _ _ _ _
            (rollingLoadStep_loads_self _ _ _ _ htlt hc))
      · exact rollingLoadStep_loads_mono _ _ _ _ _
          (rollingLoadStep_loads_self _ _ _ _ htlt
            (by rw [rollingLoadStep_cache]; exact hc))
      · exact rollingLoadStep_loads_self _ _ _ _ htlt
          (by rw [rollingLoadStep_cache, rollingLoadStep_cache]; exact hc)

/-- Witness for the amended C9: 5 clips, initial index 1, rolling target
`0 + 2`. -/
theorem buffer_ensure_covers_window_witness :
    (1 < min 3 5 ∧
      clipStatus (initialPreloadEffect 5 emptyBuffer) 1 ≠ ClipLoadState.NotLoaded) ∧
    ((1 ≤ 2 ∧ 2 ≤ 3 ∧ 0 + 2 < 5) ∧
      clipStatus (rollingEnsure 5 0 emptyBuffer) (0 + 2) ≠ ClipLoadState.NotLoaded) :=
  ⟨⟨by decide, (buffer_ensure_covers_window 5 emptyBuffer 1 0 2).1 (by decide)⟩,
   ⟨by decide, (buffer_ensure_covers_window 5 emptyBuffer 1 0 2).2
      (by decide) (by decide) (by decide)⟩⟩

end GeminiEditor
